import Mathlib

/-!
Verification of the Milan rental-listing scraper (`scraper.py`,
`facebook_nextdoor_scraper.py`, `scraper_subito_bakeca_idealista.py`).

Shallow embedding conventions:
* Python `str` is modelled as `List Char`; Python `str.lower()` as
  `List Char` mapped through `Char.toLower` (ASCII lowercasing — adequate
  here: every keyword, zone name and currency token in the source is ASCII
  apart from the euro sign, which lowercasing leaves untouched).
* Python `float` values produced from the price regexes are modelled as
  `ℚ`: every captured group has the shape `digits` or `digits sep digits`,
  whose decimal value is exact, and every comparison made by the code
  (`<= 600`, `> 600`) agrees between binary floating point and `ℚ` on such
  values, so `ℚ` is a sound model of the arithmetic the code performs.
* `re.search(pattern, s)` is modelled by trying a position matcher at every
  index from the left (`scanFirst`): this is exactly Python's leftmost-match
  rule.  Each pattern's matcher implements the pattern's greedy matching
  with backtracking; where backtracking provably cannot succeed (giving
  back digits of a `\d+` that is followed by `\s*` and a non-digit literal
  leaves the next character a digit, which can match neither) the matcher
  encodes the residual deterministic behaviour.
* `\s` and Python's default `str.strip` set are modelled by the ASCII
  whitespace characters.
-/

/-- The ASCII whitespace class, modelling the regex class `\s` (and the
characters stripped by Python `str.strip()`). -/
def isSpaceRe (c : Char) : Bool :=
  c = ' ' || c = '\t' || c = '\n' || c = '\r' || c = '\x0b' || c = '\x0c'

/-- Python `str.lower()` (ASCII fragment). -/
def pyLower (s : List Char) : List Char := s.map Char.toLower

/-- `startsWith p l` holds iff `p` is a prefix of `l`
(modelling Python `str.startswith`). -/
def startsWith : List Char → List Char → Bool
  | [], _ => true
  | _ :: _, [] => false
  | p :: ps, c :: cs => p = c && startsWith ps cs

/-- `containsSub p l` holds iff `p` occurs as a contiguous substring of `l`
(modelling Python's `p in l` on strings). -/
def containsSub (p : List Char) : List Char → Bool
  | [] => startsWith p []
  | c :: cs => startsWith p (c :: cs) || containsSub p cs

/-- Try a position matcher at every index from the left; first success wins.
This is `re.search`'s leftmost-match rule.  (No pattern of the program can
match the empty suffix, so stopping before the end position is faithful.) -/
def scanFirst (m : List Char → Option (List Char)) : List Char → Option (List Char)
  | [] => none
  | c :: rest =>
    match m (c :: rest) with
    | some g => some g
    | none => scanFirst m rest

/-- The optional decimal tail `(?:[.,]\d{2})?` of the price patterns in
`extract_price`: a separator followed by exactly two digits.  Returns the
consumed characters and the rest. -/
def decPart2 : List Char → Option (List Char × List Char)
  | c :: d1 :: d2 :: rest =>
    if (c = '.' || c = ',') && d1.isDigit && d2.isDigit then
      some ([c, d1, d2], rest)
    else none
  | _ => none

/-- The decimal tail `(?:[.,]\d+)?` of the price pattern used by the Subito,
Bakeca and Idealista scrapers: a separator followed by a maximal nonempty
digit run.  (Backtracking the `\d+` to a shorter run leaves the next
character a digit, which the following `\s*€` can never match, so only the
maximal run can lead to a match.) -/
def decPartPlus : List Char → Option (List Char × List Char)
  | c :: rest =>
    if c = '.' || c = ',' then
      let ds := rest.takeWhile Char.isDigit
      if ds.isEmpty then none else some (c :: ds, rest.dropWhile Char.isDigit)
    else none
  | [] => none

/-- Terminator `\s*€`. -/
def euroTerm (l : List Char) : Bool :=
  match l.dropWhile isSpaceRe with
  | '€' :: _ => true
  | _ => false

/-- Terminator `\s*w` for a literal word `w` (used with `euro` and `eur`). -/
def wordTerm (w : List Char) (l : List Char) : Bool :=
  startsWith w (l.dropWhile isSpaceRe)

/-- Position matcher for `(\d+(?:dec)?)\s*term`: a maximal digit run, an
optional decimal tail given by `dec`, then the terminator.  If the
terminator fails after the decimal tail the regex backtracks by dropping
the optional group (further backtracking into the digit runs cannot
succeed, as the next character is then a digit).  Returns group 1. -/
def matchNumThenGen (dec : List Char → Option (List Char × List Char))
    (term : List Char → Bool) (l : List Char) : Option (List Char) :=
  let ds := l.takeWhile Char.isDigit
  let r0 := l.dropWhile Char.isDigit
  if ds.isEmpty then none
  else
    match dec r0 with
    | some (dp, r2) =>
      if term r2 then some (ds ++ dp)
      else if term r0 then some ds
      else none
    | none => if term r0 then some ds else none

/-- Position matcher for pattern `€\s*(\d+(?:[.,]\d{2})?)` (group 1). -/
def matchP1At (l : List Char) : Option (List Char) :=
  match l with
  | [] => none
  | c :: rest =>
    if c = '€' then
      if ((rest.dropWhile isSpaceRe).takeWhile Char.isDigit).isEmpty then none
      else
        match decPart2 ((rest.dropWhile isSpaceRe).dropWhile Char.isDigit) with
        | some (dp, _) => some ((rest.dropWhile isSpaceRe).takeWhile Char.isDigit ++ dp)
        | none => some ((rest.dropWhile isSpaceRe).takeWhile Char.isDigit)
    else none

/-- Position matcher for pattern `(\d+(?:[.,]\d{2})?)\s*€`. -/
def matchP2At : List Char → Option (List Char) :=
  matchNumThenGen decPart2 euroTerm

/-- Position matcher for pattern `(\d+(?:[.,]\d{2})?)\s*euro`. -/
def matchP3At : List Char → Option (List Char) :=
  matchNumThenGen decPart2 (wordTerm ['e', 'u', 'r', 'o'])

/-- Position matcher for pattern `(\d+(?:[.,]\d{2})?)\s*eur`. -/
def matchP4At : List Char → Option (List Char) :=
  matchNumThenGen decPart2 (wordTerm ['e', 'u', 'r'])

/-- Position matcher for the Subito/Bakeca/Idealista price pattern
`(\d+(?:[.,]\d+)?)\s*€`. -/
def matchSubitoAt : List Char → Option (List Char) :=
  matchNumThenGen decPartPlus euroTerm

/-- Numeric value of a digit string. -/
def digitsToNat (ds : List Char) : Nat :=
  ds.foldl (fun n c => 10 * n + (c.toNat - 48)) 0

/-- Python `float(price_str)` after `price_str.replace(',', '.')`, on the
shapes the price regexes can capture (`digits` or `digits sep digits`).
On these shapes the conversion never raises, so the `except ValueError`
branches of the source are dead. -/
def pyFloat (g : List Char) : ℚ :=
  let intPart := g.takeWhile Char.isDigit
  let rest := g.dropWhile Char.isDigit
  match rest with
  | [] => (digitsToNat intPart : ℚ)
  | _ :: frac => (digitsToNat intPart : ℚ) + (digitsToNat frac : ℚ) / (10 ^ frac.length : ℚ)

/-- `PRICE_LIMIT = 600  # Maximum price in EUR including utilities`. -/
def PRICE_LIMIT : ℚ := 600

/-- `ACCOMMODATION_TYPES = ["monolocale", "stanza", "studio", "room", "camera"]`. -/
def ACCOMMODATION_TYPES : List (List Char) :=
  ["monolocale".data, "stanza".data, "studio".data, "room".data, "camera".data]

/-- `FacebookScraper.extract_price` (`scraper.py` lines 59–84): empty text
gives `None`; otherwise the text is lowercased and the four price patterns
are tried in order, the first match being parsed and returned with no
ceiling check. -/
def FacebookScraper.extract_price (text : List Char) : Option ℚ :=
  if text.isEmpty then none
  else
    match scanFirst matchP1At (pyLower text) with
    | some g => some (pyFloat g)
    | none =>
      match scanFirst matchP2At (pyLower text) with
      | some g => some (pyFloat g)
      | none =>
        match scanFirst matchP3At (pyLower text) with
        | some g => some (pyFloat g)
        | none =>
          match scanFirst matchP4At (pyLower text) with
          | some g => some (pyFloat g)
          | none => none

/-- One step of the pattern loop of `FacebookGroupsScraper.extract_price`:
if the pattern matched, parse the group and return it only when it is
within `PRICE_LIMIT`, otherwise fall through to the next pattern. -/
def cappedStep (g : Option (List Char)) (next : Option ℚ) : Option ℚ :=
  match g with
  | some gr => if pyFloat gr ≤ PRICE_LIMIT then some (pyFloat gr) else next
  | none => next

/-- `FacebookGroupsScraper.extract_price` (`facebook_nextdoor_scraper.py`
lines 39–64): same four patterns, but the ceiling check is inlined — a
matched price above `PRICE_LIMIT` is not returned and the loop moves on to
the next pattern. -/
def FacebookGroupsScraper.extract_price (text : List Char) : Option ℚ :=
  if text.isEmpty then none
  else
    cappedStep (scanFirst matchP1At (pyLower text))
      (cappedStep (scanFirst matchP2At (pyLower text))
        (cappedStep (scanFirst matchP3At (pyLower text))
          (cappedStep (scanFirst matchP4At (pyLower text)) none)))

/-- `FacebookScraper.is_valid_listing` (`scraper.py` lines 86–100):
`combined = f"{text} {title}".lower()`; requires an accommodation-type
keyword in `combined` and an extractable price `≤ PRICE_LIMIT`. -/
def FacebookScraper.is_valid_listing (text : List Char) (title : List Char := []) : Bool :=
  if !(ACCOMMODATION_TYPES.any (fun k => containsSub k (pyLower (text ++ ' ' :: title)))) then
    false
  else
    match FacebookScraper.extract_price (pyLower (text ++ ' ' :: title)) with
    | none => false
    | some price => if price > PRICE_LIMIT then false else true

/-- `FacebookGroupsScraper.is_valid_listing` (`facebook_nextdoor_scraper.py`
lines 66–78): keyword check on the lowercased text, then the same price
check, calling this class's own (ceiling-inlined) `extract_price`. -/
def FacebookGroupsScraper.is_valid_listing (text : List Char) : Bool :=
  if !(ACCOMMODATION_TYPES.any (fun k => containsSub k (pyLower text))) then false
  else
    match FacebookGroupsScraper.extract_price text with
    | none => false
    | some price => if price > PRICE_LIMIT then false else true

/-- The zone `for` loop shared by both `extract_zone` implementations:
return the first zone of the list whose lowercased form occurs in the
(already lowercased) text, else the empty string. -/
def zoneLoop (zones : List (List Char)) (text_lower : List Char) : List Char :=
  match zones with
  | [] => []
  | z :: rest => if containsSub (pyLower z) text_lower then z else zoneLoop rest text_lower

/-- The `zones` list of `FacebookScraper.extract_zone` (`scraper.py`
lines 206–214), in source order (including the duplicated `"Pagano"`). -/
def FacebookScraper.zones : List (List Char) :=
  ["Duomo", "Centro", "Navigli", "Ticinese", "Porta Romana",
   "Porta Vittoria", "Porta Monforte", "Porta Venezia", "Garibaldi",
   "Porta Nuova", "Moscova", "Brera", "Sant'Ambrogio", "Magenta",
   "Cairoli", "Cordusio", "Lanza", "Vercelli", "Pagano", "Conciliazione",
   "Cadorna", "Bocconi", "Gratosoglio", "De Angeli", "Wagner", "Pagano",
   "Buonarroti", "Moscatelli", "Nolo", "Isola", "Pastrone", "Stazione",
   "Centrale", "Lambrate", "Cologno", "Monza", "Brianza", "Vimercate"].map String.data

/-- `FacebookScraper.extract_zone` (`scraper.py` lines 204–221). -/
def FacebookScraper.extract_zone (text : List Char) : List Char :=
  zoneLoop FacebookScraper.zones (pyLower text)

/-- The `zones` list of `FacebookGroupsScraper.extract_zone`
(`facebook_nextdoor_scraper.py` lines 101–105). -/
def FacebookGroupsScraper.zones : List (List Char) :=
  ["Duomo", "Centro", "Navigli", "Ticinese", "Porta Romana",
   "Brera", "Nolo", "Isola", "Lambrate", "Garibaldi",
   "Magenta", "Sant'Ambrogio", "Cadorna", "Lanza", "Corso Como"].map String.data

/-- `FacebookGroupsScraper.extract_zone` (`facebook_nextdoor_scraper.py`
lines 99–112). -/
def FacebookGroupsScraper.extract_zone (text : List Char) : List Char :=
  zoneLoop FacebookGroupsScraper.zones (pyLower text)

/-- The repetition `\d{9,10}` (greedy) with nothing after it: succeeds iff
at least 9 digits follow, consuming at most 10. -/
def digits910 (l : List Char) : Option (List Char) :=
  let ds := l.takeWhile Char.isDigit
  if ds.length ≥ 9 then some (ds.take 10) else none

/-- The body of phone pattern `\+?39\s?\d{9,10}` after the optional `+`:
literal `39`, optional single whitespace (greedy, with the regex's
backtracking fallback to not consuming it), then 9–10 digits. -/
def phoneACore (l : List Char) : Option (List Char) :=
  match l with
  | '3' :: '9' :: r =>
    let withSp : Option (List Char) :=
      match r with
      | c :: r2 => if isSpaceRe c then (digits910 r2).map (fun d => c :: d) else none
      | [] => none
    match withSp with
    | some d => some ('3' :: '9' :: d)
    | none => (digits910 r).map (fun d => '3' :: '9' :: d)
  | _ => none

/-- Position matcher for phone pattern `\+?39\s?\d{9,10}` (whole match).
If the optional `+` is present but the rest fails, backtracking to an
unconsumed `+` cannot succeed (`+` is not `3`), so the matcher fails. -/
def matchPhoneAAt (l : List Char) : Option (List Char) :=
  match l with
  | '+' :: rest => (phoneACore rest).map (fun m => '+' :: m)
  | _ => phoneACore l

/-- Counted digit repetitions in greedy backtracking order: for each count
in `ns` (tried in order), succeed when that many digits are available,
yielding consumed characters and rest. -/
def tryCounts (ns : List Nat) (l : List Char) : List (List Char × List Char) :=
  ns.filterMap fun n =>
    if n ≤ (l.takeWhile Char.isDigit).length then some (l.take n, l.drop n) else none

/-- The optional whitespace `\s?` in greedy backtracking order: consume one
whitespace character if present, else (or as fallback) consume nothing. -/
def optSp (l : List Char) : List (List Char × List Char) :=
  match l with
  | c :: r => if isSpaceRe c then [([c], r), ([], c :: r)] else [([], c :: r)]
  | [] => [([], [])]

/-- Position matcher for phone pattern `\d{2,3}\s?\d{3,4}\s?\d{3,4}`
(whole match), with the engine's full greedy backtracking over the five
pieces. -/
def matchPhoneBAt (l : List Char) : Option (List Char) :=
  (tryCounts [3, 2] l).findSome? fun p1 =>
    (optSp p1.2).findSome? fun s1 =>
      (tryCounts [4, 3] s1.2).findSome? fun p2 =>
        (optSp p2.2).findSome? fun s2 =>
          (tryCounts [4, 3] s2.2).findSome? fun p3 =>
            some (p1.1 ++ s1.1 ++ p2.1 ++ s2.1 ++ p3.1)

/-- The class `[\s:]` of the third phone pattern. -/
def isPhoneSep (c : Char) : Bool := isSpaceRe c || c = ':'

/-- The class `[\d\s\-\+]` (the captured group of the third phone pattern). -/
def isPhoneBody (c : Char) : Bool := c.isDigit || isSpaceRe c || c = '-' || c = '+'

/-- Backtracking of `[\s:]*` when the following `[\d\s\-\+]+` finds nothing
after the maximal separator run `S`: give back trailing separator characters
one at a time; the first (deepest) position whose character is whitespace
(hence in the group's class) yields a match whose group is the class run
from there (it cannot extend past `S`, since the character after `S` is not
in the group's class).  Returns the consumed separators plus group. -/
def phoneCBack (S : List Char) : Option (List Char) :=
  match S with
  | [] => none
  | c :: rest =>
    match phoneCBack rest with
    | some g => some (c :: g)
    | none => if isSpaceRe c then some (c :: rest.takeWhile isPhoneBody) else none

/-- The keyword alternation `(?:tel|phone|cell|mobile)` with `re.IGNORECASE`,
tried left to right at a fixed position. -/
def phoneKwAt (l : List Char) : Option (List Char) :=
  [['t', 'e', 'l'], ['p', 'h', 'o', 'n', 'e'], ['c', 'e', 'l', 'l'],
   ['m', 'o', 'b', 'i', 'l', 'e']].findSome? fun w =>
    if pyLower (l.take w.length) = w then some (l.take w.length) else none

/-- Position matcher for phone pattern
`(?:tel|phone|cell|mobile)[\s:]*([\d\s\-\+]+)` (whole match, which is what
the source returns: its group-0 can never contain `(`, so the
`'(' not in match.group(0)` branch of the source always returns group 0). -/
def matchPhoneCAt (l : List Char) : Option (List Char) :=
  match phoneKwAt l with
  | none => none
  | some kw =>
    let r := l.drop kw.length
    let S := r.takeWhile isPhoneSep
    let r2 := r.dropWhile isPhoneSep
    let G := r2.takeWhile isPhoneBody
    if !G.isEmpty then some (kw ++ S ++ G)
    else (phoneCBack S).map (fun sg => kw ++ sg)

/-- `FacebookScraper.extract_phone` (`scraper.py` lines 183–197): the three
patterns tried in order over the raw text (all with `re.IGNORECASE`, which
only affects the keyword alternation), returning the whole match. -/
def FacebookScraper.extract_phone (text : List Char) : List Char :=
  match scanFirst matchPhoneAAt text with
  | some m => m
  | none =>
    match scanFirst matchPhoneBAt text with
    | some m => m
    | none =>
      match scanFirst matchPhoneCAt text with
      | some m => m
      | none => []

/-- The class `[a-zA-Z0-9._%+-]` (local part of the email pattern). -/
def isEmailLocal (c : Char) : Bool :=
  c.isAlpha || c.isDigit || c = '.' || c = '_' || c = '%' || c = '+' || c = '-'

/-- The class `[a-zA-Z0-9.-]` (domain part of the email pattern). -/
def isEmailDomain (c : Char) : Bool :=
  c.isAlpha || c.isDigit || c = '.' || c = '-'

/-- Backtracking of the greedy domain run `[a-zA-Z0-9.-]+` against the
following `\.[a-zA-Z]{2,}`: within the maximal domain run `R`, the engine
settles on the rightmost `.` that is followed by at least two letters; the
`{2,}` then greedily takes the whole letter run (letters cannot extend past
`R`).  Returns the matched domain characters. -/
def emailBack (R : List Char) : Option (List Char) :=
  match R with
  | [] => none
  | c :: rest =>
    match emailBack rest with
    | some d => some (c :: d)
    | none =>
      if c = '.' && (rest.takeWhile Char.isAlpha).length ≥ 2 then
        some (c :: rest.takeWhile Char.isAlpha)
      else none

/-- Position matcher for the email pattern
`[a-zA-Z0-9._%+-]+@[a-zA-Z0-9.-]+\.[a-zA-Z]{2,}` (whole match).
Backtracking the local run cannot succeed (`@` is not in the local class),
so the maximal local run must be followed by `@`. -/
def matchEmailAt (l : List Char) : Option (List Char) :=
  let L := l.takeWhile isEmailLocal
  let r := l.dropWhile isEmailLocal
  if L.isEmpty then none
  else
    match r with
    | '@' :: r2 => (emailBack (r2.takeWhile isEmailDomain)).map (fun d => L ++ '@' :: d)
    | _ => none

/-- `FacebookScraper.extract_email` (`scraper.py` lines 199–202) — the same
single-regex body is used verbatim by the other scraper classes. -/
def FacebookScraper.extract_email (text : List Char) : List Char :=
  match scanFirst matchEmailAt text with
  | some m => m
  | none => []

/-- Python `text.split('\n')[0]` as used for the listing title. -/
def firstLine (text : List Char) : List Char :=
  text.takeWhile (fun c => c ≠ '\n')

/-- Python `s.strip()` (ASCII whitespace fragment). -/
def pyStrip (s : List Char) : List Char :=
  ((s.dropWhile isSpaceRe).reverse.dropWhile isSpaceRe).reverse

/-- The normalized listing record (source: the 7-key dict built by each
scraper, sheet columns Platform/Titolo/Prezzo/Zona/Telefono/Email/URL).
`prezzo` keeps the numeric value behind the source's `f"€{price}"`
formatting; it is `none` exactly when the source writes the empty string
(price `None`, or `0.0`, Python's falsy check `if price`). -/
structure Listing where
  platform : List Char
  titolo : List Char
  prezzo : Option ℚ
  zona : List Char
  telefono : List Char
  email : List Char
  url : List Char
deriving DecidableEq

/-- A candidate Facebook group post as seen by the scrape loop: its
`text_content()` and the `href` of its first `/groups/` link, when any. -/
structure FBPost where
  text : List Char
  link : Option (List Char)
deriving DecidableEq

/-- The listing dict built for a valid post in
`FacebookScraper.scrape_groups` (`scraper.py` lines 154–162). -/
def FacebookScraper.buildListing (text url : List Char) : Listing :=
  { platform := "Facebook".data
    titolo := (firstLine text).take 200
    prezzo :=
      match FacebookScraper.extract_price text with
      | some p => if p = 0 then none else some p
      | none => none
    zona := FacebookScraper.extract_zone text
    telefono := FacebookScraper.extract_phone text
    email := FacebookScraper.extract_email text
    url := url }

/-- One iteration of the post loop of `FacebookScraper.scrape_groups`
(`scraper.py` lines 134–171) over the state
`(self.listings, self.seen_urls)`: a valid post whose url is nonempty and
unseen appends its listing and marks the url seen; otherwise the state is
unchanged. -/
def FacebookScraper.processPost (st : List Listing × List (List Char)) (post : FBPost) :
    List Listing × List (List Char) :=
  if FacebookScraper.is_valid_listing post.text then
    if post.link.getD [] ≠ [] ∧ post.link.getD [] ∉ st.2 then
      (st.1 ++ [FacebookScraper.buildListing post.text (post.link.getD [])],
       post.link.getD [] :: st.2)
    else st
  else st

/-- The pure core of `FacebookScraper.scrape_groups` (`scraper.py` lines
102–181): the candidate posts gathered across all groups are processed in
order against an initially empty `listings` list and `seen_urls` set
(the page fetching, scrolling and per-item exception logging are the
external I/O collaborators). -/
def FacebookScraper.scrape_groups (posts : List FBPost) : List Listing :=
  (posts.foldl FacebookScraper.processPost ([], [])).1

/-- A candidate anchor element of the Subito scrape: its `href` attribute
(`None` when absent) and its `text_content()`. -/
structure SubitoItem where
  href : Option (List Char)
  text : List Char
deriving DecidableEq

/-- The per-item body of `SubitoScraper.scrape`
(`scraper_subito_bakeca_idealista.py` lines 28–51): keyword check
(`monolocale`/`stanza` only), the `(\d+(?:[.,]\d+)?)\s*€` price pattern on
the stripped title, ceiling check, then the listing dict.  A `None` href
raises inside the construction and the per-item handler drops the item. -/
def SubitoScraper.itemListing (it : SubitoItem) : Option Listing :=
  if containsSub "monolocale".data (pyLower (pyStrip it.text)) ||
     containsSub "stanza".data (pyLower (pyStrip it.text)) then
    match scanFirst matchSubitoAt (pyStrip it.text) with
    | some g =>
      if pyFloat g ≤ 600 then
        match it.href with
        | none => none
        | some url =>
          some { platform := "Subito".data
                 titolo := (pyStrip it.text).take 200
                 prezzo := some (pyFloat g)
                 zona := []
                 telefono := []
                 email := []
                 url := if startsWith "http".data url then url
                        else "https://www.subito.it".data ++ url }
      else none
    | none => none
  else none

/-- The pure core of `SubitoScraper.scrape`
(`scraper_subito_bakeca_idealista.py` lines 12–60): the first 20 candidate
items are processed independently — there is no seen-set and no
deduplication in this scraper — and each passing item appends one listing. -/
def SubitoScraper.scrape (items : List SubitoItem) : List Listing :=
  (items.take 20).filterMap SubitoScraper.itemListing

/-- `FacebookGroupsScraper.scrape_groups` (`facebook_nextdoor_scraper.py`
lines 114–129): the HTTP fallback initializes `listings = []`, prints two
notices, and returns `listings` unchanged. -/
def FacebookGroupsScraper.scrape_groups : List Listing := []

/-- `scrape_facebook_groups(email, password)` (`facebook_nextdoor_scraper.py`
lines 240–243): constructs a `FacebookGroupsScraper` and delegates to its
`scrape_groups`; neither credential argument is read. -/
def scrape_facebook_groups (_email _password : List Char) : List Listing :=
  FacebookGroupsScraper.scrape_groups

/-!  ## Supporting lemmas -/

/-- `startsWith` decides the existence of a prefix decomposition. -/
theorem startsWith_iff (p l : List Char) : startsWith p l = true ↔ ∃ t, l = p ++ t := by
  induction p generalizing l with
  | nil => simp [startsWith]
  | cons x xs ih =>
    cases l with
    | nil => simp [startsWith]
    | cons c cs =>
      simp only [startsWith, Bool.and_eq_true, decide_eq_true_eq, ih, List.cons_append,
        List.cons.injEq]
      constructor
      · rintro ⟨rfl, t, rfl⟩; exact ⟨t, rfl, rfl⟩
      · rintro ⟨t, rfl, rfl⟩; exact ⟨rfl, t, rfl⟩

/-- `containsSub` decides the existence of a substring decomposition. -/
theorem containsSub_iff (p l : List Char) :
    containsSub p l = true ↔ ∃ pre post, l = pre ++ p ++ post := by
  induction l with
  | nil =>
    simp only [containsSub, startsWith_iff]
    constructor
    · rintro ⟨t, ht⟩
      rcases List.append_eq_nil.mp ht.symm with ⟨rfl, rfl⟩
      exact ⟨[], [], rfl⟩
    · rintro ⟨pre, post, h⟩
      rcases List.append_eq_nil.mp h.symm with ⟨h1, rfl⟩
      rcases List.append_eq_nil.mp h1 with ⟨rfl, rfl⟩
      exact ⟨[], rfl⟩
  | cons c cs ih =>
    simp only [containsSub, Bool.or_eq_true, startsWith_iff, ih]
    constructor
    · rintro (⟨t, ht⟩ | ⟨pre, post, h⟩)
      · exact ⟨[], t, by simpa using ht⟩
      · exact ⟨c :: pre, post, by simp [h]⟩
    · rintro ⟨pre, post, h⟩
      cases pre with
      | nil => exact Or.inl ⟨post, by simpa using h⟩
      | cons d pre' =>
        right
        simp only [List.cons_append, List.cons.injEq] at h
        exact ⟨pre', post, h.2⟩

/-- Negative form of `containsSub_iff`. -/
theorem containsSub_eq_false_iff (p l : List Char) :
    containsSub p l = false ↔ ¬ ∃ pre post, l = pre ++ p ++ post := by
  rw [← containsSub_iff, Bool.not_eq_true, Bool.eq_false_iff, ne_eq, Bool.not_eq_true]

/-- `scanFirst` returns the match found at the leftmost matching position:
if the matcher fails at every position before `i` and succeeds at `i`, the
scan returns that success (`re.search`'s leftmost-match rule). -/
theorem scanFirst_of_first (m : List Char → Option (List Char))
    (hnil : m [] = none) (l : List Char) (i : Nat) (g : List Char)
    (hi : m (l.drop i) = some g) (hj : ∀ j < i, m (l.drop j) = none) :
    scanFirst m l = some g := by
  induction l generalizing i with
  | nil =>
    rw [List.drop_nil] at hi
    rw [hnil] at hi
    exact absurd hi (by simp)
  | cons c rest ih =>
    cases i with
    | zero =>
      rw [List.drop_zero] at hi
      simp [scanFirst, hi]
    | succ i' =>
      have h0 : m (c :: rest) = none := by
        have := hj 0 (Nat.succ_pos i')
        rwa [List.drop_zero] at this
      have hi' : m (rest.drop i') = some g := by
        rwa [List.drop_succ_cons] at hi
      have hj' : ∀ j < i', m (rest.drop j) = none := by
        intro j hjlt
        have := hj (j + 1) (Nat.succ_lt_succ hjlt)
        rwa [List.drop_succ_cons] at this
      simp only [scanFirst, h0]
      exact ih i' hi' hj'

/-- Unfolding of one iteration of the `extract_zone` loop. -/
theorem zoneLoop_cons (z : List Char) (rest : List (List Char)) (tl : List Char) :
    zoneLoop (z :: rest) tl =
      if containsSub (pyLower z) tl then z else zoneLoop rest tl := rfl

/-- First-hit characterization of the `extract_zone` loop: either no zone of
the list matches and the result is the empty string, or the result is a
matching zone and every earlier zone of the list fails to match. -/
theorem zoneLoop_spec (zones : List (List Char)) (tl : List Char) :
    (zoneLoop zones tl = [] ∧ ∀ z ∈ zones, containsSub (pyLower z) tl = false) ∨
    (∃ pre post, zones = pre ++ zoneLoop zones tl :: post ∧
      containsSub (pyLower (zoneLoop zones tl)) tl = true ∧
      ∀ z ∈ pre, containsSub (pyLower z) tl = false) := by
  induction zones with
  | nil => exact Or.inl ⟨rfl, by simp⟩
  | cons z rest ih =>
    by_cases h : containsSub (pyLower z) tl = true
    · right
      refine ⟨[], rest, ?_, ?_, by simp⟩
      · rw [zoneLoop_cons, if_pos h]; rfl
      · rw [zoneLoop_cons, if_pos h]; exact h
    · have h' : containsSub (pyLower z) tl = false := by
        rwa [Bool.not_eq_true] at h
      have hz : zoneLoop (z :: rest) tl = zoneLoop rest tl := by
        rw [zoneLoop_cons, if_neg h]
      rcases ih with ⟨he, hall⟩ | ⟨pre, post, heq, hc, hpre⟩
      · left
        refine ⟨hz.trans he, ?_⟩
        intro x hx
        rcases List.mem_cons.mp hx with rfl | hx
        · exact h'
        · exact hall x hx
      · right
        refine ⟨z :: pre, post, ?_, hz ▸ hc, ?_⟩
        · rw [hz, List.cons_append]; exact congrArg _ heq
        · intro x hx
          rcases List.mem_cons.mp hx with rfl | hx
          · exact h'
          · exact hpre x hx

/-- Spec-side predicate: the text has, at index `i`, an occurrence of the
first currency pattern — a `€` sign followed (after optional whitespace) by
a digit. -/
def euroNumAtB (l : List Char) (i : Nat) : Bool :=
  match l.drop i with
  | c :: s =>
    c = '€' &&
      (match s.dropWhile isSpaceRe with
       | d :: _ => d.isDigit
       | [] => false)
  | [] => false

/-- Spec-side reading of the number matched at such an occurrence: the
maximal digit run after the `€` sign (and optional whitespace), extended by
a separator and two digits when present. -/
def euroGroupAt (l : List Char) (i : Nat) : List Char :=
  match l.drop i with
  | _ :: s =>
    match decPart2 ((s.dropWhile isSpaceRe).dropWhile Char.isDigit) with
    | some (dp, _) => (s.dropWhile isSpaceRe).takeWhile Char.isDigit ++ dp
    | none => (s.dropWhile isSpaceRe).takeWhile Char.isDigit
  | [] => []

/-- Unfolding of `matchP1At` on a nonempty suffix. -/
theorem matchP1At_cons (c : Char) (rest : List Char) :
    matchP1At (c :: rest) =
      if c = '€' then
        if ((rest.dropWhile isSpaceRe).takeWhile Char.isDigit).isEmpty then none
        else
          match decPart2 ((rest.dropWhile isSpaceRe).dropWhile Char.isDigit) with
          | some (dp, _) => some ((rest.dropWhile isSpaceRe).takeWhile Char.isDigit ++ dp)
          | none => some ((rest.dropWhile isSpaceRe).takeWhile Char.isDigit)
      else none := rfl

/-- Unfolding of `euroNumAtB` at an index with a nonempty suffix. -/
theorem euroNumAtB_cons (l : List Char) (i : Nat) (c : Char) (s : List Char)
    (hd : l.drop i = c :: s) :
    euroNumAtB l i =
      (c = '€' &&
        (match s.dropWhile isSpaceRe with
         | d :: _ => d.isDigit
         | [] => false)) := by
  unfold euroNumAtB
  rw [hd]

/-- Unfolding of `euroGroupAt` at an index with a nonempty suffix. -/
theorem euroGroupAt_cons (l : List Char) (i : Nat) (c : Char) (s : List Char)
    (hd : l.drop i = c :: s) :
    euroGroupAt l i =
      match decPart2 ((s.dropWhile isSpaceRe).dropWhile Char.isDigit) with
      | some (dp, _) => (s.dropWhile isSpaceRe).takeWhile Char.isDigit ++ dp
      | none => (s.dropWhile isSpaceRe).takeWhile Char.isDigit := by
  unfold euroGroupAt
  rw [hd]

/-- Where the spec-side predicate fails, the pattern-1 matcher fails. -/
theorem matchP1At_eq_none (l : List Char) (i : Nat) (h : euroNumAtB l i = false) :
    matchP1At (l.drop i) = none := by
  cases hd : l.drop i with
  | nil => rfl
  | cons c s =>
    rw [euroNumAtB_cons l i c s hd] at h
    simp only [Bool.and_eq_false_iff, decide_eq_false_iff_not] at h
    rw [matchP1At_cons]
    by_cases hc : c = '€'
    · have hemp : ((s.dropWhile isSpaceRe).takeWhile Char.isDigit).isEmpty = true := by
        rcases h with h | h
        · exact absurd hc h
        · cases hs : s.dropWhile isSpaceRe with
          | nil => simp [hs]
          | cons d ds =>
            rw [hs] at h
            have h' : d.isDigit = false := h
            simp [hs, List.takeWhile_cons, h']
      rw [if_pos hc, if_pos hemp]
    · rw [if_neg hc]

/-- Where the spec-side predicate holds, the pattern-1 matcher returns
exactly the spec-side group. -/
theorem matchP1At_eq_some (l : List Char) (i : Nat) (h : euroNumAtB l i = true) :
    matchP1At (l.drop i) = some (euroGroupAt l i) := by
  cases hd : l.drop i with
  | nil =>
    unfold euroNumAtB at h
    rw [hd] at h
    simp at h
  | cons c s =>
    rw [euroNumAtB_cons l i c s hd] at h
    simp only [Bool.and_eq_true, decide_eq_true_eq] at h
    obtain ⟨rfl, hdig⟩ := h
    have hne : ((s.dropWhile isSpaceRe).takeWhile Char.isDigit).isEmpty = false := by
      cases hs : s.dropWhile isSpaceRe with
      | nil =>
        rw [hs] at hdig
        simp at hdig
      | cons d ds =>
        rw [hs] at hdig
        have h' : d.isDigit = true := hdig
        simp [hs, List.takeWhile_cons, h']
    rw [matchP1At_cons, if_pos rfl, if_neg (by rw [hne]; exact Bool.false_ne_true),
      euroGroupAt_cons l i '€' s hd]
    cases decPart2 ((s.dropWhile isSpaceRe).dropWhile Char.isDigit) with
    | none => rfl
    | some pr => rfl

/-- Each step of the capped pattern loop only emits prices within the
ceiling, provided the fallthrough does. -/
theorem cappedStep_le (g : Option (List Char)) (next : Option ℚ)
    (hn : ∀ q, next = some q → q ≤ PRICE_LIMIT) :
    ∀ q, cappedStep g next = some q → q ≤ PRICE_LIMIT := by
  intro q hq
  cases g with
  | none => exact hn q hq
  | some gr =>
    rw [show cappedStep (some gr) next =
          if pyFloat gr ≤ PRICE_LIMIT then some (pyFloat gr) else next from rfl] at hq
    by_cases hle : pyFloat gr ≤ PRICE_LIMIT
    · rw [if_pos hle] at hq
      cases hq
      exact hle
    · rw [if_neg hle] at hq
      exact hn q hq

/-- Any price returned by the Groups-variant extractor is within the
ceiling: every return site of `FacebookGroupsScraper.extract_price` is
guarded by the inlined `price <= PRICE_LIMIT` check. -/
theorem fbg_extract_price_le (text : List Char) :
    ∀ p, FacebookGroupsScraper.extract_price text = some p → p ≤ PRICE_LIMIT := by
  intro p hp
  unfold FacebookGroupsScraper.extract_price at hp
  by_cases he : text.isEmpty
  · rw [if_pos he] at hp
    exact absurd hp (by simp)
  · rw [if_neg he] at hp
    exact cappedStep_le _ _
      (cappedStep_le _ _
        (cappedStep_le _ _
          (cappedStep_le _ _ (fun q h => absurd h (by simp))))) p hp

/-- In `FacebookGroupsScraper.is_valid_listing` the `price > PRICE_LIMIT`
branch is unreachable, so the function reduces to: keyword present and a
price was extracted. -/
theorem fbg_is_valid_eq (text : List Char) :
    FacebookGroupsScraper.is_valid_listing text =
      (ACCOMMODATION_TYPES.any (fun k => containsSub k (pyLower text)) &&
        (FacebookGroupsScraper.extract_price text).isSome) := by
  unfold FacebookGroupsScraper.is_valid_listing
  by_cases h : ACCOMMODATION_TYPES.any (fun k => containsSub k (pyLower text)) = true
  · rw [if_neg (by rw [h]; simp)]
    rw [h, Bool.true_and]
    cases he : FacebookGroupsScraper.extract_price text with
    | none => rfl
    | some p =>
      have hle := fbg_extract_price_le text p he
      simp only [Option.isSome_some]
      rw [if_neg (not_lt.mpr hle)]
  · have h' : ACCOMMODATION_TYPES.any (fun k => containsSub k (pyLower text)) = false := by
      rwa [Bool.not_eq_true] at h
    rw [if_pos (by rw [h']; rfl), h', Bool.false_and]

/-- The state invariant of the Facebook post loop: retained listings have
pairwise distinct urls, all of them recorded in the seen-set. -/
def ScrapeInv (st : List Listing × List (List Char)) : Prop :=
  (st.1.map Listing.url).Nodup ∧ ∀ u ∈ st.1.map Listing.url, u ∈ st.2

/-- One iteration of the Facebook post loop preserves the invariant: a
listing is appended only when its url is absent from the seen-set, and the
url is recorded at the same time. -/
theorem processPost_inv (st : List Listing × List (List Char)) (p : FBPost)
    (h : ScrapeInv st) : ScrapeInv (FacebookScraper.processPost st p) := by
  unfold FacebookScraper.processPost
  split
  · split
    · rename_i hcond
      obtain ⟨hne, hnotin⟩ := hcond
      obtain ⟨hnd, hsub⟩ := h
      constructor
      · rw [List.map_append, List.map_cons, List.map_nil]
        refine List.Nodup.append hnd (List.nodup_singleton _) ?_
        intro a ha hb
        rw [List.mem_singleton] at hb
        subst hb
        exact hnotin (hsub _ ha)
      · intro u hu
        rw [List.map_append, List.map_cons, List.map_nil, List.mem_append,
          List.mem_singleton] at hu
        rcases hu with hu | rfl
        · exact List.mem_cons_of_mem _ (hsub u hu)
        · exact List.mem_cons_self _ _
    · exact h
  · exact h

/-- The Facebook post loop preserves the invariant along any post list. -/
theorem foldl_processPost_inv (posts : List FBPost) :
    ∀ st, ScrapeInv st → ScrapeInv (posts.foldl FacebookScraper.processPost st) := by
  induction posts with
  | nil => exact fun st h => h
  | cons p ps ih =>
    intro st h
    rw [List.foldl_cons]
    exact ih _ (processPost_inv st p h)

/-- Every listing the Subito per-item logic constructs carries a price that
passed the `price <= 600` guard. -/
theorem subito_item_price_le (it : SubitoItem) (l : Listing)
    (h : SubitoScraper.itemListing it = some l) :
    ∀ p, l.prezzo = some p → p ≤ 600 := by
  unfold SubitoScraper.itemListing at h
  split at h
  · split at h
    · rename_i g hg
      split at h
      · rename_i hle
        split at h
        · exact absurd h (by simp)
        · intro p hp
          cases h
          have h2 : some (pyFloat g) = some p := hp
          cases h2
          exact hle
      · exact absurd h (by simp)
    · exact absurd h (by simp)
  · exact absurd h (by simp)

/-- A post whose url is empty or already seen changes nothing. -/
theorem processPost_no_add (st : List Listing × List (List Char)) (p : FBPost)
    (h : p.link.getD [] = [] ∨ p.link.getD [] ∈ st.2) :
    FacebookScraper.processPost st p = st := by
  unfold FacebookScraper.processPost
  split
  · have hc : ¬(p.link.getD [] ≠ [] ∧ p.link.getD [] ∉ st.2) := by
      rintro ⟨h1, h2⟩
      rcases h with h | h
      · exact h1 h
      · exact h2 h
    rw [if_neg hc]
  · rfl

/-- Of two posts carrying the same link, the second is never retained: once
the first valid one is processed, its url is in the seen-set (or empty), so
the second post leaves the state unchanged. -/
theorem fb_second_dup_dropped (p1 p2 : FBPost) (hlink : p2.link = p1.link)
    (hvalid : FacebookScraper.is_valid_listing p1.text = true) :
    FacebookScraper.scrape_groups [p1, p2] = FacebookScraper.scrape_groups [p1] := by
  unfold FacebookScraper.scrape_groups
  simp only [List.foldl_cons, List.foldl_nil]
  congr 1
  apply processPost_no_add
  by_cases hu : p1.link.getD [] = []
  · left
    rw [hlink]
    exact hu
  · right
    have hst : FacebookScraper.processPost ([], []) p1 =
        (([] : List Listing) ++ [FacebookScraper.buildListing p1.text (p1.link.getD [])],
         [p1.link.getD []]) := by
      unfold FacebookScraper.processPost
      rw [if_pos hvalid, if_pos ⟨hu, by simp⟩]
    rw [hst, hlink]
    exact List.mem_singleton.mpr rfl

/-- Spec-side description of `extract_zone`: the result is either the empty
string, with no zone of the gazetteer occurring (case-insensitively) in the
text, or the first zone of the gazetteer, in list order, that so occurs. -/
def zoneSpecHolds (zones : List (List Char)) (text r : List Char) : Prop :=
  (r = [] ∧ ∀ z ∈ zones, ¬ ∃ pre post, pyLower text = pre ++ pyLower z ++ post) ∨
  (∃ pre post, zones = pre ++ r :: post ∧
    (∃ a b, pyLower text = a ++ pyLower r ++ b) ∧
    ∀ z ∈ pre, ¬ ∃ a b, pyLower text = a ++ pyLower z ++ b)

/-- The `extract_zone` loop satisfies the spec-side description. -/
theorem zoneLoop_sem (zones : List (List Char)) (text : List Char) :
    zoneSpecHolds zones text (zoneLoop zones (pyLower text)) := by
  rcases zoneLoop_spec zones (pyLower text) with ⟨he, hall⟩ | ⟨pre, post, heq, hc, hpre⟩
  · exact Or.inl ⟨he, fun z hz => (containsSub_eq_false_iff _ _).mp (hall z hz)⟩
  · exact Or.inr ⟨pre, post, heq, (containsSub_iff _ _).mp hc,
      fun z hz => (containsSub_eq_false_iff _ _).mp (hpre z hz)⟩

/-!  ## Claims -/

/-- Claim C1, as stated, is false: the Subito/Bakeca/Idealista scrapers
have no seen-set, so a run of `SubitoScraper.scrape` given two candidate
items with the same URL retains both — dedup does not hold for every
per-platform scraper. -/
theorem claim_C1_counterexample :
    (SubitoScraper.scrape
        [⟨some "http://subito.it/a".data, "Monolocale 500€".data⟩,
         ⟨some "http://subito.it/a".data, "Monolocale 500€".data⟩]).map Listing.url =
      ["http://subito.it/a".data, "http://subito.it/a".data] ∧
    ¬ ((SubitoScraper.scrape
        [⟨some "http://subito.it/a".data, "Monolocale 500€".data⟩,
         ⟨some "http://subito.it/a".data, "Monolocale 500€".data⟩]).map Listing.url).Nodup := by
  decide

/-- Claim C1 (amended): in the scrapers that maintain a seen-set — here
`FacebookScraper.scrape_groups` — URLs are unique within one run, and of two
candidate posts sharing the same URL only the first (valid) one is
retained; the Subito/Bakeca/Idealista scrapers perform no deduplication. -/
theorem claim_C1_amended :
    (∀ posts : List FBPost,
      ((FacebookScraper.scrape_groups posts).map Listing.url).Nodup) ∧
    (∀ p1 p2 : FBPost, p2.link = p1.link →
      FacebookScraper.is_valid_listing p1.text = true →
      FacebookScraper.scrape_groups [p1, p2] = FacebookScraper.scrape_groups [p1]) := by
  constructor
  · intro posts
    exact (foldl_processPost_inv posts ([], []) ⟨List.nodup_nil, by simp⟩).1
  · exact fun p1 p2 hl hv => fb_second_dup_dropped p1 p2 hl hv

/-- Witness for claim C1 (amended) at two concrete posts sharing a URL. -/
theorem claim_C1_witness :
    FacebookScraper.scrape_groups
        [⟨"Monolocale Navigli 500€".data, some "http://fb/1".data⟩,
         ⟨"Stanza Brera 400€".data, some "http://fb/1".data⟩] =
      FacebookScraper.scrape_groups
        [⟨"Monolocale Navigli 500€".data, some "http://fb/1".data⟩] :=
  claim_C1_amended.2
    ⟨"Monolocale Navigli 500€".data, some "http://fb/1".data⟩
    ⟨"Stanza Brera 400€".data, some "http://fb/1".data⟩
    rfl (by decide)

/-- Claim C2: the two nearly-duplicate price extractors differ
extensionally — on `"€700"` the `FacebookScraper` variant returns the first
pattern match `700.0` with no ceiling check, while the
`FacebookGroupsScraper` variant, whose ceiling check is inlined, returns
`None`. -/
theorem claim_C2 :
    FacebookScraper.extract_price "€700".data = some 700 ∧
    FacebookGroupsScraper.extract_price "€700".data = none ∧
    FacebookScraper.extract_price "€700".data ≠
      FacebookGroupsScraper.extract_price "€700".data := by
  decide

/-- Claim C3, as stated over both cited implementations, is false: the text
`"€700"` contains a match of the currency pattern `€(\d+)` with number 700,
yet `FacebookGroupsScraper.extract_price` does not return it (the inlined
ceiling check suppresses the match and the remaining patterns fail, giving
`None`). -/
theorem claim_C3_counterexample :
    euroNumAtB (pyLower "€700".data) 0 = true ∧
    pyFloat (euroGroupAt (pyLower "€700".data) 0) = 700 ∧
    FacebookGroupsScraper.extract_price "€700".data ≠ some 700 ∧
    FacebookGroupsScraper.extract_price "€700".data = none := by
  decide

/-- Claim C3 (amended): for `FacebookScraper.extract_price` the claim
holds — whenever the (lowercased) text has an occurrence of `€` followed by
a number at position `i`, and none earlier, the function returns exactly
that number, read as a decimal with a comma separator converted to a dot.
For `FacebookGroupsScraper.extract_price` this is only true of numbers
within the ceiling, as the counterexample shows. -/
theorem claim_C3_amended (t : List Char) (i : Nat)
    (h1 : euroNumAtB (pyLower t) i = true)
    (h2 : ∀ j < i, euroNumAtB (pyLower t) j = false) :
    FacebookScraper.extract_price t = some (pyFloat (euroGroupAt (pyLower t) i)) := by
  have ht : t.isEmpty = false := by
    cases t with
    | nil =>
      unfold euroNumAtB at h1
      rw [show pyLower [] = [] from rfl, List.drop_nil] at h1
      simp at h1
    | cons c cs => rfl
  have hscan : scanFirst matchP1At (pyLower t) = some (euroGroupAt (pyLower t) i) :=
    scanFirst_of_first matchP1At rfl (pyLower t) i _ (matchP1At_eq_some _ _ h1)
      (fun j hj => matchP1At_eq_none _ _ (h2 j hj))
  unfold FacebookScraper.extract_price
  rw [if_neg (by rw [ht]; exact Bool.false_ne_true), hscan]

/-- Witness for claim C3 (amended) at the concrete text `"€550"`. -/
theorem claim_C3_witness :
    FacebookScraper.extract_price "€550".data =
      some (pyFloat (euroGroupAt (pyLower "€550".data) 0)) ∧
    pyFloat (euroGroupAt (pyLower "€550".data) 0) = 550 :=
  ⟨claim_C3_amended "€550".data 0 (by decide)
      (fun j hj => absurd hj (Nat.not_lt_zero j)),
   by decide⟩

/-- Claim C4: a text (and title) in which no accommodation-type keyword
occurs makes `is_valid_listing` return false, whatever price the text
carries — the keyword check short-circuits before any price is looked at,
in both implementations. -/
theorem claim_C4 (text title : List Char)
    (h1 : ∀ k ∈ ACCOMMODATION_TYPES,
      ¬ ∃ pre post, pyLower (text ++ ' ' :: title) = pre ++ k ++ post)
    (h2 : ∀ k ∈ ACCOMMODATION_TYPES, ¬ ∃ pre post, pyLower text = pre ++ k ++ post) :
    FacebookScraper.is_valid_listing text title = false ∧
    FacebookGroupsScraper.is_valid_listing text = false := by
  have e1 : ACCOMMODATION_TYPES.any
      (fun k => containsSub k (pyLower (text ++ ' ' :: title))) = false := by
    rw [List.any_eq_false]
    intro k hk
    rw [Bool.not_eq_true, containsSub_eq_false_iff]
    exact h1 k hk
  have e2 : ACCOMMODATION_TYPES.any (fun k => containsSub k (pyLower text)) = false := by
    rw [List.any_eq_false]
    intro k hk
    rw [Bool.not_eq_true, containsSub_eq_false_iff]
    exact h2 k hk
  constructor
  · unfold FacebookScraper.is_valid_listing
    rw [if_pos (by rw [e1]; rfl)]
  · unfold FacebookGroupsScraper.is_valid_listing
    rw [if_pos (by rw [e2]; rfl)]

/-- Witness for claim C4 at a concrete keyword-free text with a price. -/
theorem claim_C4_witness :
    FacebookScraper.is_valid_listing "ciao 500€".data [] = false ∧
    FacebookGroupsScraper.is_valid_listing "ciao 500€".data = false :=
  claim_C4 "ciao 500€".data []
    (fun k hk h => by
      have hc : containsSub k (pyLower ("ciao 500€".data ++ ' ' :: [])) = true :=
        (containsSub_iff _ _).mpr h
      simp only [ACCOMMODATION_TYPES, List.mem_cons, List.not_mem_nil, or_false] at hk
      rcases hk with rfl | rfl | rfl | rfl | rfl <;> exact absurd hc (by decide))
    (fun k hk h => by
      have hc : containsSub k (pyLower "ciao 500€".data) = true :=
        (containsSub_iff _ _).mpr h
      simp only [ACCOMMODATION_TYPES, List.mem_cons, List.not_mem_nil, or_false] at hk
      rcases hk with rfl | rfl | rfl | rfl | rfl <;> exact absurd hc (by decide))

/-- Claim C5: a text whose extracted price strictly exceeds the ceiling 600
is excluded — `FacebookScraper.is_valid_listing` rejects it, so no Listing
is built from it, and every Listing the Subito scraper constructs carries a
price at most 600. -/
theorem claim_C5 :
    (∀ text title p,
      FacebookScraper.extract_price (pyLower (text ++ ' ' :: title)) = some p →
      p > PRICE_LIMIT → FacebookScraper.is_valid_listing text title = false) ∧
    (∀ items, ∀ l ∈ SubitoScraper.scrape items, ∀ p, l.prezzo = some p → p ≤ 600) := by
  constructor
  · intro text title p hp hgt
    unfold FacebookScraper.is_valid_listing
    split
    · rfl
    · rw [hp]
      show (if p > PRICE_LIMIT then false else true) = false
      rw [if_pos hgt]
  · intro items l hl p hp
    unfold SubitoScraper.scrape at hl
    obtain ⟨it, _, hit⟩ := List.mem_filterMap.mp hl
    exact subito_item_price_le it l hit p hp

/-- Witness for claim C5 at a concrete above-ceiling text. -/
theorem claim_C5_witness :
    FacebookScraper.is_valid_listing "monolocale 900€".data [] = false :=
  claim_C5.1 "monolocale 900€".data [] 900 (by decide) (by decide)

/-- Claim C6: the end-to-end scenario — on the title
`"Monolocale zona Navigli, 550€ trattabili"` the extracted price is 550.0,
the extracted zone is `"Navigli"`, and the listing is valid. -/
theorem claim_C6 :
    FacebookScraper.extract_price "Monolocale zona Navigli, 550€ trattabili".data =
      some 550 ∧
    FacebookScraper.extract_zone "Monolocale zona Navigli, 550€ trattabili".data =
      "Navigli".data ∧
    FacebookScraper.is_valid_listing
      "Monolocale zona Navigli, 550€ trattabili".data [] = true := by
  decide

/-- Claim C7: on the title `"Bilocale Duomo 900€"` the extracted price is
900.0, above the ceiling 600; `is_valid_listing` is false in both
implementations and the scrape loop builds no Listing from such a post. -/
theorem claim_C7 :
    FacebookScraper.extract_price "Bilocale Duomo 900€".data = some 900 ∧
    (900 : ℚ) > PRICE_LIMIT ∧
    FacebookScraper.is_valid_listing "Bilocale Duomo 900€".data [] = false ∧
    FacebookGroupsScraper.is_valid_listing "Bilocale Duomo 900€".data = false ∧
    FacebookScraper.scrape_groups
      [⟨"Bilocale Duomo 900€".data, some "http://fb/groups/x".data⟩] = [] := by
  decide

/-- Claim C8: both `extract_zone` implementations perform a
case-insensitive substring match against their static ordered gazetteer,
returning the first entry in list order that occurs in the lowercased text
and the empty string when none does. -/
theorem claim_C8 (text : List Char) :
    zoneSpecHolds FacebookScraper.zones text (FacebookScraper.extract_zone text) ∧
    zoneSpecHolds FacebookGroupsScraper.zones text
      (FacebookGroupsScraper.extract_zone text) :=
  ⟨zoneLoop_sem FacebookScraper.zones text, zoneLoop_sem FacebookGroupsScraper.zones text⟩

/-- Claim C9: the HTTP-fallback Facebook groups path returns the empty list
for every pair of credential arguments, ignoring both. -/
theorem claim_C9 (email password : List Char) :
    scrape_facebook_groups email password = [] ∧
    ∀ email2 password2, scrape_facebook_groups email password =
      scrape_facebook_groups email2 password2 :=
  ⟨rfl, fun _ _ => rfl⟩

/-- Claim C10: every price `FacebookGroupsScraper.extract_price` returns is
at most 600, so the `price > PRICE_LIMIT` branch of
`FacebookGroupsScraper.is_valid_listing` is unreachable and the function
reduces to the keyword check plus price extractability. -/
theorem claim_C10 (text : List Char) :
    (∀ p, FacebookGroupsScraper.extract_price text = some p → p ≤ PRICE_LIMIT) ∧
    FacebookGroupsScraper.is_valid_listing text =
      (ACCOMMODATION_TYPES.any (fun k => containsSub k (pyLower text)) &&
        (FacebookGroupsScraper.extract_price text).isSome) :=
  ⟨fbg_extract_price_le text, fbg_is_valid_eq text⟩

/-- Witness for claim C10 at a concrete extracted price. -/
theorem claim_C10_witness : (500 : ℚ) ≤ PRICE_LIMIT :=
  (claim_C10 "stanza 500€".data).1 500 (by decide)
